import Mathlib

/-!
# Verification of the lock-protected primitives of MultiThreading_In_CPP

Shallow embedding of

* `transfer_safe_lock` (6_DeadLock_Avoidance/2_deadlock_avoidance_using_lock.cpp) and
  `transfer_scoped_lock` (6_DeadLock_Avoidance/3_deadlock_avoidance_using_scoped_lock.cpp),
  as a small-step machine over the accounts and their mutexes, run by one task alone
  (`Bank.transfer`) or by two tasks concurrently (`Bank.Duo`);
* `ThreadsafeQueue` (4_Condition_Variables/2_producer_consumer_problem.cpp), as a machine whose
  atomic actions are the critical sections of `push` and `wait_and_pop`;
* `increment_counter_safe` (3_Mutex/1_mutex.cpp) and `increment_counter_safe_lock_guard`
  (3_Mutex/2_RAII_lock_guard.cpp), as a two-task machine whose atomic actions are the single
  mutex operations, loads and stores.
-/

namespace Bank

/-- Identity of an executing task (thread). -/
abbrev Tid := Nat

/-- The two implementations of the transfer in the repository. -/
inductive Impl where
  | transfer_safe_lock
  | transfer_scoped_lock
  deriving DecidableEq

def INT_MIN : Int := -2147483648

def INT_MAX : Int := 2147483647

/-- Value stored in a 32-bit `int` for the arithmetic result `x` (two's complement wrap-around;
in C++ the overflow is undefined behaviour, and no `int` equals `x` when `x` is out of range). -/
def wrapInt (x : Int) : Int := (x + 2147483648) % 4294967296 - 2147483648

/-- The value is representable in a 32-bit `int`. -/
def isInt (x : Int) : Prop := INT_MIN ≤ x ∧ x ≤ INT_MAX

instance isInt.decidable (x : Int) : Decidable (isInt x) :=
  inferInstanceAs (Decidable (_ ∧ _))

/-- A collection of `n` objects of `class Account`; an object is identified by its index, which
plays the role of its address. `balance i` is the field `int balance`, `m i` the state of the
field `std::mutex m`: `none` when free, `some t` when task `t` owns it. -/
structure Accounts (n : Nat) where
  balance : Fin n → Int
  m : Fin n → Option Tid

/-- Program points of one call of `transfer_safe_lock` / `transfer_scoped_lock`.
`lockFirst`, `tryNext` and `backoff` are the points inside `std::lock`; `rot = false` when the
current attempt starts with `from.m`, `rot = true` when it starts with `to.m`. -/
inductive Pc where
  | entry
  | lockFirst (rot : Bool)
  | tryNext (rot : Bool)
  | backoff (rot : Bool)
  | body
  | unlock1
  | unlock2
  | returned
  deriving DecidableEq

/-- The mutex of account `h` becomes owned by task `t`. -/
def mutexLock {n : Nat} (t : Tid) (h : Fin n) (s : Accounts n) : Accounts n :=
  { s with m := Function.update s.m h (some t) }

/-- The mutex of account `h` becomes free. -/
def mutexUnlock {n : Nat} (h : Fin n) (s : Accounts n) : Accounts n :=
  { s with m := Function.update s.m h none }

/-- Modelled from the spec: the acquisition algorithm behind `std::lock(from.m, to.m)` and
`std::scoped_lock lock(from.m, to.m)`, which is library code outside the repository; it follows
section 4.2 (MultiLockAcquirer) for two handles, one atomic action per mutex operation.
`lockFirst`: blocking `lock()` of the starting handle (the task cannot move while it is held).
`tryNext`: non-blocking `try_lock()` of the other handle; success means both are held.
`backoff`: after a failed try, release the handle held and restart from the other handle.
The result is `none` when the task is blocked. -/
def acquire {n : Nat} (t : Tid) (from_ to_ : Fin n) (pc : Pc) (s : Accounts n) :
    Option (Pc × Accounts n) :=
  match pc with
  | .lockFirst rot =>
    let h := if rot then to_ else from_
    match s.m h with
    | none => some (.tryNext rot, mutexLock t h s)
    | some _ => none
  | .tryNext rot =>
    let h := if rot then from_ else to_
    match s.m h with
    | none => some (.body, mutexLock t h s)
    | some _ => some (.backoff rot, s)
  | .backoff rot =>
    let h := if rot then to_ else from_
    some (.lockFirst (!rot), mutexUnlock h s)
  | _ => none

/-- The guarded balance update: lines 23-29 of `transfer_safe_lock`, lines 16-22 of
`transfer_scoped_lock`. The output to `std::cout` is not modelled. -/
def transferBody {n : Nat} (from_ to_ : Fin n) (amount : Int) (s : Accounts n) : Accounts n :=
  if s.balance from_ ≥ amount then
    let s1 : Accounts n :=
      { s with balance := Function.update s.balance from_ (wrapInt (s.balance from_ - amount)) }
    { s1 with balance := Function.update s1.balance to_ (wrapInt (s1.balance to_ + amount)) }
  else s

/-- One atomic action of task `t` executing `transfer(from_, to_, amount)` at program point `pc`;
`none` when the task is blocked or has returned.
`entry`: the identity check of line 14, present in `transfer_safe_lock` only.
`body`: the guarded update, both mutexes held.
`unlock1`, `unlock2`: the two unlocks at scope exit; the `lock_guard`s of `transfer_safe_lock`
are destroyed in reverse order of construction (`to.m` first), `std::scoped_lock` unlocks
`from.m` first. -/
def step {n : Nat} (impl : Impl) (t : Tid) (from_ to_ : Fin n) (amount : Int)
    (pc : Pc) (s : Accounts n) : Option (Pc × Accounts n) :=
  match pc with
  | .entry =>
    match impl with
    | .transfer_safe_lock =>
      if from_ = to_ then some (.returned, s) else some (.lockFirst false, s)
    | .transfer_scoped_lock => some (.lockFirst false, s)
  | .lockFirst rot => acquire t from_ to_ (.lockFirst rot) s
  | .tryNext rot => acquire t from_ to_ (.tryNext rot) s
  | .backoff rot => acquire t from_ to_ (.backoff rot) s
  | .body => some (.unlock1, transferBody from_ to_ amount s)
  | .unlock1 =>
    match impl with
    | .transfer_safe_lock => some (.unlock2, mutexUnlock to_ s)
    | .transfer_scoped_lock => some (.unlock2, mutexUnlock from_ s)
  | .unlock2 =>
    match impl with
    | .transfer_safe_lock => some (.returned, mutexUnlock from_ s)
    | .transfer_scoped_lock => some (.returned, mutexUnlock to_ s)
  | .returned => none

/-- Run one task alone for at most `fuel` atomic actions; a blocked task stays where it is. -/
def runSolo {n : Nat} (impl : Impl) (t : Tid) (from_ to_ : Fin n) (amount : Int) :
    Nat → Pc → Accounts n → Pc × Accounts n
  | 0, pc, s => (pc, s)
  | fuel + 1, pc, s =>
    match step impl t from_ to_ amount pc s with
    | none => (pc, s)
    | some (pc', s') => runSolo impl t from_ to_ amount fuel pc' s'

/-- A complete call executed by task `t` with no other task running: `some s'` when the call has
returned within `fuel` atomic actions, `none` when it has not. -/
def transfer {n : Nat} (impl : Impl) (t : Tid) (fuel : Nat) (from_ to_ : Fin n) (amount : Int)
    (s : Accounts n) : Option (Accounts n) :=
  match runSolo impl t from_ to_ amount fuel .entry s with
  | (.returned, s') => some s'
  | _ => none

/-- One call in a sequence of transfers. -/
structure Call (n : Nat) where
  from_ : Fin n
  to_ : Fin n
  amount : Int

/-- Sum of all balances, as a mathematical integer. -/
def total {n : Nat} (s : Accounts n) : Int := ∑ i, s.balance i

/-- Execute the calls one after the other, each to completion (`fuel` atomic actions at most per
call); `none` when some call does not return. -/
def runCalls {n : Nat} (impl : Impl) (t : Tid) (fuel : Nat) :
    List (Call n) → Accounts n → Option (Accounts n)
  | [], s => some s
  | c :: cs, s =>
    match transfer impl t fuel c.from_ c.to_ c.amount s with
    | none => none
    | some s' => runCalls impl t fuel cs s'

/-- Neither balance update of the call leaves the range of `int` in state `s`. -/
def Call.exact {n : Nat} (c : Call n) (s : Accounts n) : Prop :=
  c.from_ ≠ c.to_ → s.balance c.from_ ≥ c.amount →
    isInt (s.balance c.from_ - c.amount) ∧ isInt (s.balance c.to_ + c.amount)

/-- Every call of the sequence is overflow-free in the state in which it starts. -/
def runExact {n : Nat} (impl : Impl) (t : Tid) (fuel : Nat) :
    List (Call n) → Accounts n → Prop
  | [], _ => True
  | c :: cs, s =>
    c.exact s ∧ ∀ s', transfer impl t fuel c.from_ c.to_ c.amount s = some s' →
      runExact impl t fuel cs s'

/-- Program points inside the acquisition loop. -/
def Pc.acquiring : Pc → Bool
  | .lockFirst _ => true
  | .tryNext _ => true
  | .backoff _ => true
  | _ => false

/-- Program points of the acquisition loop at which the starting handle is held. -/
def Pc.holdsFirst : Pc → Bool
  | .tryNext _ => true
  | .backoff _ => true
  | _ => false

/-- Program points after the guarded balance update. -/
def Pc.afterBody : Pc → Bool
  | .unlock1 => true
  | .unlock2 => true
  | .returned => true
  | _ => false

/-- Accounts `A` (index 0) with balance 100 and `B` (index 1) with balance 0, both unlocked. -/
def exampleAB : Accounts 2 := { balance := ![100, 0], m := fun _ => none }

/-- Balances 1 and `INT_MAX`, both unlocked. -/
def exampleMax : Accounts 2 := { balance := ![1, 2147483647], m := fun _ => none }

/-- Two empty accounts, both unlocked. -/
def exampleZero : Accounts 2 := { balance := ![0, 0], m := fun _ => none }

/-- Two tasks running concurrently on the same accounts: task `0` (scheduled as `false`) executes
`transfer(A, B, x)` and task `1` (scheduled as `true`) executes `transfer(B, A, y)`. -/
structure Duo (n : Nat) where
  accounts : Accounts n
  pc0 : Pc
  pc1 : Pc

def Duo.init {n : Nat} (s : Accounts n) : Duo n :=
  { accounts := s, pc0 := .entry, pc1 := .entry }

/-- Both calls have returned. -/
def Duo.finished {n : Nat} (c : Duo n) : Bool :=
  decide (c.pc0 = .returned) && decide (c.pc1 = .returned)

/-- One atomic action of the scheduled task; `none` when that task is blocked or has returned. -/
def Duo.step {n : Nat} (impl : Impl) (A B : Fin n) (x y : Int) (t : Bool) (c : Duo n) :
    Option (Duo n) :=
  match t with
  | false =>
    match Bank.step impl 0 A B x c.pc0 c.accounts with
    | none => none
    | some (pc, s) => some { c with pc0 := pc, accounts := s }
  | true =>
    match Bank.step impl 1 B A y c.pc1 c.accounts with
    | none => none
    | some (pc, s) => some { c with pc1 := pc, accounts := s }

/-- Execute an interleaving: the list names the task taking each successive atomic action;
`none` when a task is scheduled that cannot move. -/
def Duo.exec {n : Nat} (impl : Impl) (A B : Fin n) (x y : Int) :
    List Bool → Duo n → Option (Duo n)
  | [], c => some c
  | t :: ts, c =>
    match Duo.step impl A B x y t c with
    | none => none
    | some c' => Duo.exec impl A B x y ts c'

/-- Twelve alternating actions: each task locks one mutex, fails the try on the other, backs
off, and the same happens once more with the starting handles rotated. -/
def spin : List Bool :=
  [false, true, false, true, false, true, false, true, false, true, false, true]

/-- Owner of a mutex as seen by the two tasks. -/
def ownAbs : Option Tid → Option Bool
  | none => none
  | some 0 => some false
  | some (_ + 1) => some true

/-- Control skeleton of a two-task state: program points and owners of the mutexes of `A`, `B`. -/
structure Ctl where
  pc0 : Pc
  pc1 : Pc
  ownA : Option Bool
  ownB : Option Bool
  deriving DecidableEq

/-- Control skeleton of `step` for a task `me` on distinct accounts, given the owners of the
mutexes of its `from_` and `to_`. -/
def absStep (impl : Impl) (me : Bool) (pc : Pc) (oFrom oTo : Option Bool) :
    Option (Pc × Option Bool × Option Bool) :=
  match pc with
  | .entry => some (.lockFirst false, oFrom, oTo)
  | .lockFirst false => if oFrom = none then some (.tryNext false, some me, oTo) else none
  | .lockFirst true => if oTo = none then some (.tryNext true, oFrom, some me) else none
  | .tryNext false =>
    if oTo = none then some (.body, oFrom, some me) else some (.backoff false, oFrom, oTo)
  | .tryNext true =>
    if oFrom = none then some (.body, some me, oTo) else some (.backoff true, oFrom, oTo)
  | .backoff false => some (.lockFirst true, none, oTo)
  | .backoff true => some (.lockFirst false, oFrom, none)
  | .body => some (.unlock1, oFrom, oTo)
  | .unlock1 =>
    match impl with
    | .transfer_safe_lock => some (.unlock2, oFrom, none)
    | .transfer_scoped_lock => some (.unlock2, none, oTo)
  | .unlock2 =>
    match impl with
    | .transfer_safe_lock => some (.returned, none, oTo)
    | .transfer_scoped_lock => some (.returned, oFrom, none)
  | .returned => none

def Ctl.step (impl : Impl) (t : Bool) (k : Ctl) : Option Ctl :=
  match t with
  | false =>
    match absStep impl false k.pc0 k.ownA k.ownB with
    | none => none
    | some (pc, oa, ob) => some { k with pc0 := pc, ownA := oa, ownB := ob }
  | true =>
    match absStep impl true k.pc1 k.ownB k.ownA with
    | none => none
    | some (pc, ob, oa) => some { k with pc1 := pc, ownA := oa, ownB := ob }

def Ctl.finished (k : Ctl) : Bool := decide (k.pc0 = .returned) && decide (k.pc1 = .returned)

/-- Run a schedule on the control skeleton; scheduling a task that cannot move changes nothing. -/
def Ctl.runSkip (impl : Impl) : List Bool → Ctl → Ctl
  | [], k => k
  | t :: ts, k =>
    match Ctl.step impl t k with
    | none => Ctl.runSkip impl ts k
    | some k' => Ctl.runSkip impl ts k'

/-- Program points at which the task owns the mutex of its `from_`. -/
def holdsFrom (impl : Impl) : Pc → Bool
  | .tryNext rot => !rot
  | .backoff rot => !rot
  | .body => true
  | .unlock1 => true
  | .unlock2 => decide (impl = .transfer_safe_lock)
  | _ => false

/-- Program points at which the task owns the mutex of its `to_`. -/
def holdsTo (impl : Impl) : Pc → Bool
  | .tryNext rot => rot
  | .backoff rot => rot
  | .body => true
  | .unlock1 => true
  | .unlock2 => decide (impl = .transfer_scoped_lock)
  | _ => false

/-- Owner of a mutex, given whether task 0 and task 1 are at a point where they own it; `none`
when both would own it. -/
def expectOwner (h0 h1 : Bool) : Option (Option Bool) :=
  match h0, h1 with
  | true, true => none
  | true, false => some (some false)
  | false, true => some (some true)
  | false, false => some none

/-- Invariant of the two-task system: each mutex is owned exactly by the task whose program point
says so. -/
def CInv (impl : Impl) (k : Ctl) : Bool :=
  decide (expectOwner (holdsFrom impl k.pc0) (holdsTo impl k.pc1) = some k.ownA) &&
  decide (expectOwner (holdsTo impl k.pc0) (holdsFrom impl k.pc1) = some k.ownB)

/-- Let task 0 run as far as it can, then task 1, then task 0 again. -/
def drain : List Bool :=
  List.replicate 7 false ++ List.replicate 7 true ++ List.replicate 7 false

/-- Control skeleton of a two-task state. -/
def Duo.ctl {n : Nat} (A B : Fin n) (c : Duo n) : Ctl :=
  { pc0 := c.pc0, pc1 := c.pc1, ownA := ownAbs (c.accounts.m A), ownB := ownAbs (c.accounts.m B) }

end Bank

namespace ThreadsafeQueue

/-- State of one `ThreadsafeQueue<int>`: the contents of `data_queue` (front first) and the
consumers that are inside `data_cond.wait`, either still blocked (`waiting`) or already unblocked
and about to re-acquire `mut` (`woken`). Consumers are identified by natural numbers. -/
structure State where
  data_queue : List Int
  waiting : List Nat
  woken : List Nat
  deriving DecidableEq

/-- The queue as constructed: empty, nobody waiting. -/
def State.init : State := { data_queue := [], waiting := [], woken := [] }

/-- The atomic actions on the queue. `push` and `wait_and_pop` are the calls of the member
functions (their critical sections under `mut`); `spurious c` unblocks the waiting consumer `c`
without a notification; `resume c` is the unblocked consumer `c` re-acquiring `mut` and
evaluating the wait predicate again. `pick` is the scheduler's choice of the consumer that
`notify_one` unblocks. -/
inductive Event where
  | push (new_value : Int) (pick : Nat)
  | wait_and_pop (c : Nat)
  | spurious (c : Nat)
  | resume (c : Nat)
  deriving DecidableEq

/-- The call `data_cond.notify_one()`: unblock one of the waiting consumers, if there is one. -/
def notify_one (pick : Nat) (s : State) : State :=
  match s.waiting[pick % s.waiting.length]? with
  | none => s
  | some c => { s with waiting := s.waiting.erase c, woken := c :: s.woken }

/-- The member function `push`, lines 17-19: append at the tail, then notify. -/
def push (new_value : Int) (pick : Nat) (s : State) : State :=
  notify_one pick { s with data_queue := s.data_queue ++ [new_value] }

/-- One evaluation of the wait predicate `!data_queue.empty()` by consumer `c` holding `mut`
(line 27): when it is false the consumer is suspended, when it is true lines 29-30 remove the
front element and `wait_and_pop` returns it. -/
def checkAndPop (c : Nat) (s : State) : State × Option Int :=
  match s.data_queue with
  | [] => ({ s with waiting := c :: s.waiting }, none)
  | value :: rest => ({ s with data_queue := rest }, some value)

/-- Effect of one event; the second component is the value that a `wait_and_pop` returned in this
step, if one returned. An event of a consumer that is not in the matching situation (a call by a
suspended consumer, a wake-up of a consumer that is not waiting) changes nothing. -/
def step (e : Event) (s : State) : State × Option Int :=
  match e with
  | .push v pick => (push v pick s, none)
  | .wait_and_pop c => if c ∈ s.waiting ∨ c ∈ s.woken then (s, none) else checkAndPop c s
  | .spurious c =>
    if c ∈ s.waiting then ({ s with waiting := s.waiting.erase c, woken := c :: s.woken }, none)
    else (s, none)
  | .resume c =>
    if c ∈ s.woken then checkAndPop c { s with woken := s.woken.erase c } else (s, none)

/-- Run a sequence of events; the second component lists the values returned by `wait_and_pop`,
in order of return. -/
def run : List Event → State → State × List Int
  | [], s => (s, [])
  | e :: es, s =>
    let r := step e s
    let rest := run es r.1
    (rest.1, r.2.toList ++ rest.2)

/-- The values pushed by the events, in push order. -/
def pushedOf : List Event → List Int
  | [] => []
  | .push v _ :: es => v :: pushedOf es
  | _ :: es => pushedOf es

/-- No consumer is recorded twice among the suspended ones. -/
def State.wf (s : State) : Prop := (s.waiting ++ s.woken).Nodup

end ThreadsafeQueue

namespace Counter

/-- The two protected increment loops: `increment_counter_safe` (3_Mutex/1_mutex.cpp) holds the
mutex around the whole loop, `increment_counter_safe_lock_guard` (3_Mutex/2_RAII_lock_guard.cpp)
takes it around each single increment. -/
inductive Variant where
  | increment_counter_safe
  | increment_counter_safe_lock_guard
  deriving DecidableEq

/-- Program points of one task.
`lock`: about to execute `mtx.lock()` / construct the `lock_guard`;
`test`: about to evaluate the loop condition `i < 1000000`;
`load`, `store`: the read and the write of the read-modify-write `shared_counter++`;
`next`: about to execute `++i`;
`unlock`: about to execute `mtx.unlock()` / destroy the `lock_guard`;
`done`: the function has returned. -/
inductive Pc where
  | lock
  | test
  | load
  | store
  | next
  | unlock
  | done
  deriving DecidableEq

/-- Local state of one task: program point, loop variable `i`, and the value read by the pending
`shared_counter++`. -/
structure Task where
  pc : Pc
  i : Nat
  tmp : Int
  deriving DecidableEq

/-- Global state: the shared counter (`shared_counter`, called `shared_counter_safe` in
2_RAII_lock_guard.cpp), the owner of the mutex (`mtx`, there `counter_mutex`), and the local
states of the two tasks `t1`, `t2` started by `main` (here `t0` for `false`, `t1` for `true`). -/
structure State where
  shared_counter : Int
  mtx : Option Bool
  t0 : Task
  t1 : Task
  deriving DecidableEq

/-- Local state of task `t`. -/
def State.task (s : State) (t : Bool) : Task := if t then s.t1 else s.t0

/-- Replace the local state of task `t`. -/
def State.setTask (s : State) (t : Bool) (k : Task) : State :=
  if t then { s with t1 := k } else { s with t0 := k }

/-- First program point: `increment_counter_safe` starts with `mtx.lock()`,
`increment_counter_safe_lock_guard` with the loop. -/
def entryPc : Variant → Pc
  | .increment_counter_safe => .lock
  | .increment_counter_safe_lock_guard => .test

/-- The state in which `main` starts the two tasks: counter 0, mutex free. -/
def init (v : Variant) : State :=
  { shared_counter := 0, mtx := none,
    t0 := { pc := entryPc v, i := 0, tmp := 0 }, t1 := { pc := entryPc v, i := 0, tmp := 0 } }

/-- Value stored in the counter for the arithmetic result `x`: `shared_counter` is a `long long`
(64 bits) in 1_mutex.cpp and a `long` in 2_RAII_lock_guard.cpp, taken at its minimum width of
32 bits; two's complement wrap-around. -/
def wrapCounter : Variant → Int → Int
  | .increment_counter_safe, x =>
    (x + 9223372036854775808) % 18446744073709551616 - 9223372036854775808
  | .increment_counter_safe_lock_guard, x => (x + 2147483648) % 4294967296 - 2147483648

/-- One atomic action of task `t`; `none` when the task is blocked on the mutex or has finished.
`N` is the loop bound (1000000 in the source). In `increment_counter_safe` the loop runs between
`lock` and `unlock`; in `increment_counter_safe_lock_guard` every iteration runs
`lock`, `load`, `store`, `unlock` and then `++i`. -/
def step (v : Variant) (N : Nat) (t : Bool) (s : State) : Option State :=
  let k := s.task t
  match k.pc with
  | .lock =>
    match s.mtx with
    | none =>
      some ({ s with mtx := some t }.setTask t
        { k with pc := match v with
            | .increment_counter_safe => .test
            | .increment_counter_safe_lock_guard => .load })
    | some _ => none
  | .test =>
    if k.i < N then
      some (s.setTask t { k with pc := match v with
            | .increment_counter_safe => .load
            | .increment_counter_safe_lock_guard => .lock })
    else
      some (s.setTask t { k with pc := match v with
            | .increment_counter_safe => .unlock
            | .increment_counter_safe_lock_guard => .done })
  | .load => some (s.setTask t { k with pc := .store, tmp := s.shared_counter })
  | .store =>
    some ({ s with shared_counter := wrapCounter v (k.tmp + 1) }.setTask t
      { k with pc := match v with
            | .increment_counter_safe => .next
            | .increment_counter_safe_lock_guard => .unlock })
  | .next => some (s.setTask t { k with pc := .test, i := k.i + 1 })
  | .unlock =>
    some ({ s with mtx := none }.setTask t
      { k with pc := match v with
            | .increment_counter_safe => .done
            | .increment_counter_safe_lock_guard => .next })
  | .done => none

/-- Execute an interleaving: the list names the task taking each successive atomic action. -/
def exec (v : Variant) (N : Nat) : List Bool → State → Option State
  | [], s => some s
  | t :: ts, s =>
    match step v N t s with
    | none => none
    | some s' => exec v N ts s'

/-- Both tasks have returned (both `join`s of `main` complete). -/
def State.finished (s : State) : Bool := decide (s.t0.pc = .done) && decide (s.t1.pc = .done)

/-- Number of atomic actions one task takes from start to return. -/
def soloLen (v : Variant) (N : Nat) : Nat :=
  match v with
  | .increment_counter_safe => 4 * N + 3
  | .increment_counter_safe_lock_guard => 6 * N + 1

/-- Program points at which the task owns `mtx`. -/
def holds : Variant → Pc → Bool
  | .increment_counter_safe, .test => true
  | .increment_counter_safe, .load => true
  | .increment_counter_safe, .store => true
  | .increment_counter_safe, .next => true
  | .increment_counter_safe, .unlock => true
  | .increment_counter_safe_lock_guard, .load => true
  | .increment_counter_safe_lock_guard, .store => true
  | .increment_counter_safe_lock_guard, .unlock => true
  | _, _ => false

/-- Number of increments the task has already written to `shared_counter`. -/
def contrib (v : Variant) (k : Task) : Int :=
  match v, k.pc with
  | .increment_counter_safe, .next => k.i + 1
  | .increment_counter_safe_lock_guard, .unlock => k.i + 1
  | .increment_counter_safe_lock_guard, .next => k.i + 1
  | _, _ => k.i

/-- Number of atomic actions the task still has to take. -/
def remaining (v : Variant) (N : Nat) (k : Task) : Nat :=
  match v, k.pc with
  | .increment_counter_safe, .lock => 4 * (N - k.i) + 3
  | .increment_counter_safe, .test => 4 * (N - k.i) + 2
  | .increment_counter_safe, .load => 4 * (N - k.i) + 1
  | .increment_counter_safe, .store => 4 * (N - k.i)
  | .increment_counter_safe, .next => 4 * (N - k.i) - 1
  | .increment_counter_safe, .unlock => 1
  | .increment_counter_safe_lock_guard, .test => 6 * (N - k.i) + 1
  | .increment_counter_safe_lock_guard, .lock => 6 * (N - k.i)
  | .increment_counter_safe_lock_guard, .load => 6 * (N - k.i) - 1
  | .increment_counter_safe_lock_guard, .store => 6 * (N - k.i) - 2
  | .increment_counter_safe_lock_guard, .unlock => 6 * (N - k.i) - 3
  | .increment_counter_safe_lock_guard, .next => 6 * (N - k.i) - 4
  | _, .done => 0

/-- Number of atomic actions the two tasks still have to take. -/
def State.remaining (v : Variant) (N : Nat) (s : State) : Nat :=
  Counter.remaining v N s.t0 + Counter.remaining v N s.t1

/-- Facts about one task that hold in every reachable state. -/
def TaskInv (v : Variant) (N : Nat) (counter : Int) (k : Task) : Prop :=
  k.i ≤ N ∧
  (k.pc = .store → k.tmp = counter) ∧
  (k.pc = .done → k.i = N) ∧
  (k.pc = .load ∨ k.pc = .store ∨ k.pc = .next → k.i < N) ∧
  (v = .increment_counter_safe → k.pc = .unlock → k.i = N) ∧
  (v = .increment_counter_safe_lock_guard → k.pc = .lock ∨ k.pc = .unlock → k.i < N)

/-- Owner of the mutex, given whether task 0 and task 1 are at a point where they own it; `none`
when both would own it. -/
def mtxOf (h0 h1 : Bool) : Option (Option Bool) :=
  match h0, h1 with
  | true, true => none
  | true, false => some (some false)
  | false, true => some (some true)
  | false, false => some none

/-- Invariant of the two-task system: the mutex is owned exactly by the task whose program point
says so, and the counter equals the number of increments written so far. -/
def Inv (v : Variant) (N : Nat) (s : State) : Prop :=
  mtxOf (holds v s.t0.pc) (holds v s.t1.pc) = some s.mtx ∧
  TaskInv v N s.shared_counter s.t0 ∧ TaskInv v N s.shared_counter s.t1 ∧
  s.shared_counter = contrib v s.t0 + contrib v s.t1

/-- A task can move unless it has finished or waits for a held mutex. -/
def canMove (pc : Pc) (mtx : Option Bool) : Bool :=
  match pc, mtx with
  | .done, _ => false
  | .lock, some _ => false
  | _, _ => true

end Counter

namespace Bank

theorem wrapInt_of_isInt (x : Int) (h : isInt x) : wrapInt x = x := by
  unfold isInt INT_MIN INT_MAX at h
  unfold wrapInt
  omega

theorem wrapInt_modEq (x : Int) : ∃ k : Int, wrapInt x = x + 4294967296 * k := by
  refine ⟨-((x + 2147483648) / 4294967296), ?_⟩
  unfold wrapInt
  omega

theorem runSolo_returned {n : Nat} (impl : Impl) (t : Tid) (from_ to_ : Fin n) (amount : Int)
    (k : Nat) (s : Accounts n) :
    runSolo impl t from_ to_ amount k .returned s = (.returned, s) := by
  cases k <;> simp [runSolo, step]

theorem transferBody_m {n : Nat} (from_ to_ : Fin n) (amount : Int) (s : Accounts n) :
    (transferBody from_ to_ amount s).m = s.m := by
  unfold transferBody
  split <;> rfl

theorem transferBody_mutexLock {n : Nat} (from_ to_ : Fin n) (amount : Int) (t : Tid)
    (h : Fin n) (s : Accounts n) :
    transferBody from_ to_ amount (mutexLock t h s) =
      mutexLock t h (transferBody from_ to_ amount s) := by
  unfold transferBody mutexLock
  split <;> rfl

theorem unlock_lock_restore {n : Nat} (t : Tid) (a b : Fin n) (s : Accounts n)
    (ha : s.m a = none) (hb : s.m b = none) (c d : Fin n)
    (hc : (c = a ∧ d = b) ∨ (c = b ∧ d = a)) :
    mutexUnlock d (mutexUnlock c (mutexLock t b (mutexLock t a s))) = s := by
  cases s with
  | mk bal m =>
    simp only [mutexUnlock, mutexLock, Accounts.mk.injEq, true_and]
    funext i
    simp only at ha hb
    rcases hc with ⟨rfl, rfl⟩ | ⟨rfl, rfl⟩ <;>
      by_cases h1 : i = c <;> by_cases h2 : i = d <;> simp [Function.update, h1, h2, ha, hb]

theorem runSolo_distinct {n : Nat} (impl : Impl) (t : Tid) (from_ to_ : Fin n) (amount : Int)
    (s : Accounts n) (hne : from_ ≠ to_) (hf : s.m from_ = none) (ht : s.m to_ = none)
    (k : Nat) :
    runSolo impl t from_ to_ amount (k + 6) .entry s =
      (.returned, transferBody from_ to_ amount s) := by
  have hto : (mutexLock t from_ s).m to_ = none := by
    simp [mutexLock, Function.update, Ne.symm hne, ht]
  have hrest1 := unlock_lock_restore t from_ to_ (transferBody from_ to_ amount s)
    (by rw [transferBody_m]; exact hf) (by rw [transferBody_m]; exact ht) to_ from_
    (Or.inr ⟨rfl, rfl⟩)
  have hrest2 := unlock_lock_restore t from_ to_ (transferBody from_ to_ amount s)
    (by rw [transferBody_m]; exact hf) (by rw [transferBody_m]; exact ht) from_ to_
    (Or.inl ⟨rfl, rfl⟩)
  cases impl <;>
    simp [runSolo, step, acquire, hne, hf, hto, runSolo_returned, transferBody_mutexLock,
      hrest1, hrest2]

theorem transfer_distinct {n : Nat} (impl : Impl) (t : Tid) (from_ to_ : Fin n) (amount : Int)
    (s : Accounts n) (hne : from_ ≠ to_) (hf : s.m from_ = none) (ht : s.m to_ = none)
    (fuel : Nat) (hfuel : 6 ≤ fuel) :
    transfer impl t fuel from_ to_ amount s = some (transferBody from_ to_ amount s) := by
  obtain ⟨k, rfl⟩ : ∃ k, fuel = k + 6 := ⟨fuel - 6, by omega⟩
  simp [transfer, runSolo_distinct impl t from_ to_ amount s hne hf ht k]

theorem transfer_safe_self {n : Nat} (t : Tid) (a : Fin n) (amount : Int) (s : Accounts n)
    (fuel : Nat) :
    transfer .transfer_safe_lock t (fuel + 1) a a amount s = some s := by
  simp [transfer, runSolo, step, runSolo_returned]

theorem sum_update {n : Nat} (f : Fin n → Int) (a : Fin n) (v : Int) :
    ∑ i, Function.update f a v i = ∑ i, f i - f a + v := by
  rw [Finset.sum_update_of_mem (Finset.mem_univ a), Finset.sdiff_singleton_eq_erase,
    ← Finset.add_sum_erase Finset.univ f (Finset.mem_univ a)]
  ring

theorem total_transferBody {n : Nat} (from_ to_ : Fin n) (amount : Int) (s : Accounts n)
    (hne : from_ ≠ to_) :
    total (transferBody from_ to_ amount s) =
      if s.balance from_ ≥ amount then
        total s - s.balance from_ - s.balance to_ + wrapInt (s.balance from_ - amount)
          + wrapInt (s.balance to_ + amount)
      else total s := by
  unfold transferBody total
  split
  · simp only [sum_update, Function.update_noteq (Ne.symm hne)]
    ring
  · rfl

theorem transferBody_total {n : Nat} (from_ to_ : Fin n) (amount : Int) (s : Accounts n)
    (hne : from_ ≠ to_) :
    (∃ k : Int, total (transferBody from_ to_ amount s) = total s + 4294967296 * k) ∧
    ((Call.mk from_ to_ amount).exact s → total (transferBody from_ to_ amount s) = total s) := by
  rw [total_transferBody _ _ _ _ hne]
  by_cases hge : s.balance from_ ≥ amount
  · simp only [hge, if_true]
    constructor
    · obtain ⟨k1, h1⟩ := wrapInt_modEq (s.balance from_ - amount)
      obtain ⟨k2, h2⟩ := wrapInt_modEq (s.balance to_ + amount)
      exact ⟨k1 + k2, by rw [h1, h2]; ring⟩
    · intro hx
      obtain ⟨a1, a2⟩ := hx hne hge
      rw [wrapInt_of_isInt _ a1, wrapInt_of_isInt _ a2]
      ring
  · simp only [hge, if_false]
    exact ⟨⟨0, by ring⟩, fun _ => trivial⟩

theorem runCalls_total {n : Nat} (impl : Impl) (t : Tid) (fuel : Nat) (hfuel : 6 ≤ fuel)
    (calls : List (Call n)) :
    ∀ (s : Accounts n), (impl = .transfer_scoped_lock → ∀ c ∈ calls, c.from_ ≠ c.to_) →
      (∀ i, s.m i = none) →
      ∃ s', runCalls impl t fuel calls s = some s' ∧ s'.m = s.m ∧
        (∃ k : Int, total s' = total s + 4294967296 * k) ∧
        (runExact impl t fuel calls s → total s' = total s) := by
  induction calls with
  | nil =>
    intro s _ _
    exact ⟨s, rfl, rfl, ⟨0, by ring⟩, fun _ => rfl⟩
  | cons c cs ih =>
    intro s hok hfree
    have hok' : impl = .transfer_scoped_lock → ∀ c ∈ cs, c.from_ ≠ c.to_ :=
      fun h c hc => hok h c (List.mem_cons_of_mem _ hc)
    have hstep : ∃ s1, transfer impl t fuel c.from_ c.to_ c.amount s = some s1 ∧ s1.m = s.m ∧
        (∃ k : Int, total s1 = total s + 4294967296 * k) ∧ (c.exact s → total s1 = total s) := by
      by_cases hft : c.from_ = c.to_
      · have himpl : impl = .transfer_safe_lock := by
          cases impl with
          | transfer_safe_lock => rfl
          | transfer_scoped_lock => exact absurd hft (hok rfl c (List.mem_cons_self _ _))
        subst himpl
        obtain ⟨k, rfl⟩ : ∃ k, fuel = k + 1 := ⟨fuel - 1, by omega⟩
        refine ⟨s, ?_, rfl, ⟨0, by ring⟩, fun _ => rfl⟩
        rw [← hft]
        exact transfer_safe_self t c.from_ c.amount s k
      · refine ⟨_, transfer_distinct impl t c.from_ c.to_ c.amount s hft (hfree _) (hfree _)
          fuel hfuel, transferBody_m _ _ _ _, ?_⟩
        exact transferBody_total c.from_ c.to_ c.amount s hft
    obtain ⟨s1, h1, hm1, ⟨k1, hk1⟩, hx1⟩ := hstep
    obtain ⟨s', h2, hm2, ⟨k2, hk2⟩, hx2⟩ := ih s1 hok' (by intro i; rw [hm1]; exact hfree i)
    refine ⟨s', ?_, by rw [hm2, hm1], ⟨k1 + k2, by rw [hk2, hk1]; ring⟩, ?_⟩
    · simp only [runCalls, h1]
      exact h2
    · intro hx
      simp only [runExact] at hx
      rw [hx2 (hx.2 s1 h1), hx1 hx.1]

theorem runSolo_self_acquiring {n : Nat} (impl : Impl) (t : Tid) (a : Fin n) (amount : Int)
    (fuel : Nat) : ∀ (pc : Pc) (s : Accounts n), pc.acquiring = true →
      (pc.holdsFirst = true → s.m a ≠ none) →
      (runSolo impl t a a amount fuel pc s).1.acquiring = true := by
  induction fuel with
  | zero => intro pc s h _; simpa [runSolo] using h
  | succ k ih =>
    intro pc s hacq hheld
    cases pc with
    | lockFirst rot =>
      cases hm : s.m a with
      | none =>
        simp only [runSolo, step, acquire, ite_self, hm]
        exact ih _ _ rfl (by intro _; simp [mutexLock])
      | some o => simp [runSolo, step, acquire, hm, Pc.acquiring]
    | tryNext rot =>
      cases hm : s.m a with
      | none => exact absurd hm (hheld rfl)
      | some o =>
        simp only [runSolo, step, acquire, ite_self, hm]
        exact ih _ _ rfl (by intro _; simp [hm])
    | backoff rot =>
      simp only [runSolo, step, acquire, ite_self]
      exact ih _ _ rfl (by intro h; simp [Pc.holdsFirst] at h)
    | entry => simp [Pc.acquiring] at hacq
    | body => simp [Pc.acquiring] at hacq
    | unlock1 => simp [Pc.acquiring] at hacq
    | unlock2 => simp [Pc.acquiring] at hacq
    | returned => simp [Pc.acquiring] at hacq

theorem transfer_scoped_self_none {n : Nat} (t : Tid) (a : Fin n) (amount : Int)
    (s : Accounts n) (fuel : Nat) :
    transfer .transfer_scoped_lock t fuel a a amount s = none := by
  unfold transfer
  cases fuel with
  | zero => simp [runSolo]
  | succ k =>
    have h := runSolo_self_acquiring .transfer_scoped_lock t a amount k (.lockFirst false) s rfl
      (by intro h; simp [Pc.holdsFirst] at h)
    simp only [runSolo, step]
    generalize runSolo Impl.transfer_scoped_lock t a a amount k (Pc.lockFirst false) s = r at h
    obtain ⟨pc, s'⟩ := r
    cases pc <;> simp_all [Pc.acquiring]

theorem transferBody_balance_congr {n : Nat} (from_ to_ : Fin n) (amount : Int)
    (s1 s2 : Accounts n) (h : s1.balance = s2.balance) :
    (transferBody from_ to_ amount s1).balance = (transferBody from_ to_ amount s2).balance := by
  unfold transferBody
  rw [h]
  split <;> simp [h]

theorem runSolo_afterBody_balance {n : Nat} (impl : Impl) (t : Tid) (from_ to_ : Fin n)
    (amount : Int) (fuel : Nat) : ∀ (pc : Pc) (s : Accounts n), pc.afterBody = true →
      (runSolo impl t from_ to_ amount fuel pc s).2.balance = s.balance := by
  induction fuel with
  | zero => intro pc s _; rfl
  | succ k ih =>
    intro pc s h
    cases pc <;> simp [Pc.afterBody] at h
    · cases impl <;> simp only [runSolo, step] <;> rw [ih .unlock2 _ rfl] <;> rfl
    · cases impl <;> simp only [runSolo, step] <;> rw [ih .returned _ rfl] <;> rfl
    · simp [runSolo, step]

theorem runSolo_returned_balance {n : Nat} (impl : Impl) (t : Tid) (from_ to_ : Fin n)
    (amount : Int) (hne : from_ ≠ to_) (fuel : Nat) : ∀ (pc : Pc) (s : Accounts n),
      pc.afterBody = false →
      (runSolo impl t from_ to_ amount fuel pc s).1 = .returned →
      (runSolo impl t from_ to_ amount fuel pc s).2.balance =
        (transferBody from_ to_ amount s).balance := by
  induction fuel with
  | zero =>
    intro pc s h hr
    simp only [runSolo] at hr
    subst hr
    simp [Pc.afterBody] at h
  | succ k ih =>
    intro pc s h hr
    cases pc with
    | entry =>
      cases impl <;> simp only [runSolo, step, hne, if_false] at hr ⊢ <;>
        exact ih (.lockFirst false) _ rfl hr
    | lockFirst rot =>
      cases hm : s.m (if rot = true then to_ else from_) with
      | none =>
        simp only [runSolo, step, acquire, hm] at hr ⊢
        rw [ih (.tryNext rot) _ rfl hr]
        exact transferBody_balance_congr _ _ _ _ _ rfl
      | some o => simp [runSolo, step, acquire, hm] at hr
    | tryNext rot =>
      cases hm : s.m (if rot = true then from_ else to_) with
      | none =>
        simp only [runSolo, step, acquire, hm] at hr ⊢
        rw [ih .body _ rfl hr]
        exact transferBody_balance_congr _ _ _ _ _ rfl
      | some o =>
        simp only [runSolo, step, acquire, hm] at hr ⊢
        exact ih (.backoff rot) _ rfl hr
    | backoff rot =>
      simp only [runSolo, step, acquire] at hr ⊢
      rw [ih (.lockFirst (!rot)) _ rfl hr]
      exact transferBody_balance_congr _ _ _ _ _ rfl
    | body =>
      simp only [runSolo, step]
      exact runSolo_afterBody_balance _ _ _ _ _ _ .unlock1 _ rfl
    | unlock1 => simp [Pc.afterBody] at h
    | unlock2 => simp [Pc.afterBody] at h
    | returned => simp [Pc.afterBody] at h

theorem transfer_some_balance {n : Nat} (impl : Impl) (t : Tid) (fuel : Nat) (from_ to_ : Fin n)
    (amount : Int) (s s' : Accounts n) (hne : from_ ≠ to_)
    (h : transfer impl t fuel from_ to_ amount s = some s') :
    s'.balance = (transferBody from_ to_ amount s).balance := by
  unfold transfer at h
  have key := runSolo_returned_balance impl t from_ to_ amount hne fuel .entry s rfl
  generalize runSolo impl t from_ to_ amount fuel .entry s = r at h key
  obtain ⟨pc, s2⟩ := r
  cases pc <;> simp at h
  subst h
  exact key rfl

/-- C1 (as amended): for two distinct accounts and an amount with `from.balance >= amount` such
that `from.balance - amount` and `to.balance + amount` are representable in `int`, whenever the
call returns it has decreased `from.balance` by exactly `amount` and increased `to.balance` by
exactly `amount`; and it does return when both mutexes are free (six atomic actions suffice).
This holds for `transfer_safe_lock` and `transfer_scoped_lock` alike. -/
theorem transfer_moves_amount {n : Nat} (impl : Impl) (t : Tid) (from_ to_ : Fin n)
    (amount : Int) (s : Accounts n) (hne : from_ ≠ to_) (hge : s.balance from_ ≥ amount)
    (hr1 : isInt (s.balance from_ - amount)) (hr2 : isInt (s.balance to_ + amount)) :
    (∀ fuel s', transfer impl t fuel from_ to_ amount s = some s' →
      s'.balance from_ = s.balance from_ - amount ∧
      s'.balance to_ = s.balance to_ + amount) ∧
    (s.m from_ = none → s.m to_ = none → ∀ fuel, 6 ≤ fuel →
      ∃ s', transfer impl t fuel from_ to_ amount s = some s') := by
  constructor
  · intro fuel s' h
    rw [transfer_some_balance impl t fuel from_ to_ amount s s' hne h]
    constructor
    · simp [transferBody, hge, Function.update_noteq hne, wrapInt_of_isInt _ hr1]
    · simp [transferBody, hge, Function.update_noteq (Ne.symm hne), wrapInt_of_isInt _ hr2]
  · intro hf ht fuel hfuel
    exact ⟨_, transfer_distinct impl t from_ to_ amount s hne hf ht fuel hfuel⟩

/-- Witness for C1: `A.balance = 100`, `B.balance = 0`, `transfer(A, B, 50)` returns with
`A.balance = 50` and `B.balance = 50`. -/
theorem transfer_moves_amount_witness :
    ∃ s', transfer .transfer_safe_lock 0 6 (0 : Fin 2) 1 50 exampleAB = some s' ∧
      s'.balance 0 = 50 ∧ s'.balance 1 = 50 := by
  have h := transfer_moves_amount .transfer_safe_lock 0 (0 : Fin 2) 1 50 exampleAB (by decide)
    (by decide) (by decide) (by decide)
  obtain ⟨s', hs⟩ := h.2 rfl rfl 6 (by decide)
  exact ⟨s', hs, (h.1 6 s' hs).1.trans (by decide), (h.1 6 s' hs).2.trans (by decide)⟩

/-- Counterexample to C1 as stated: with `from.balance = 1`, `to.balance = INT_MAX` and
`amount = 1` the guard `from.balance >= amount` holds, the call returns, and `to.balance` is not
`INT_MAX + 1` (which no `int` can hold); in both implementations. -/
theorem transfer_moves_amount_overflow :
    (∃ s', transfer .transfer_safe_lock 0 6 (0 : Fin 2) 1 1 exampleMax = some s' ∧
      exampleMax.balance 0 ≥ 1 ∧ s'.balance 1 ≠ exampleMax.balance 1 + 1) ∧
    (∃ s', transfer .transfer_scoped_lock 0 6 (0 : Fin 2) 1 1 exampleMax = some s' ∧
      exampleMax.balance 0 ≥ 1 ∧ s'.balance 1 ≠ exampleMax.balance 1 + 1) := by
  constructor <;>
  · refine ⟨_, transfer_distinct _ 0 (0 : Fin 2) 1 1 exampleMax (by decide) rfl rfl 6
      (by decide), ?_, ?_⟩
    · decide
    · decide

/-- C2: for two distinct accounts and an amount with `from.balance < amount`, whenever the call
returns all balances are as before the call; and when both mutexes are free it does return (six
atomic actions suffice), with the whole state, balances and mutexes, as before. This holds for
`transfer_safe_lock` and `transfer_scoped_lock` alike. -/
theorem transfer_insufficient_unchanged {n : Nat} (impl : Impl) (t : Tid) (from_ to_ : Fin n)
    (amount : Int) (s : Accounts n) (hne : from_ ≠ to_) (hlt : s.balance from_ < amount) :
    (∀ fuel s', transfer impl t fuel from_ to_ amount s = some s' → s'.balance = s.balance) ∧
    (s.m from_ = none → s.m to_ = none → ∀ fuel, 6 ≤ fuel →
      transfer impl t fuel from_ to_ amount s = some s) := by
  have hb : transferBody from_ to_ amount s = s := by
    unfold transferBody
    rw [if_neg (by omega)]
  constructor
  · intro fuel s' h
    rw [transfer_some_balance impl t fuel from_ to_ amount s s' hne h, hb]
  · intro hf ht fuel hfuel
    rw [transfer_distinct impl t from_ to_ amount s hne hf ht fuel hfuel, hb]

/-- Witness for C2: `A.balance = 100`, `B.balance = 0`, `transfer(A, B, 1000)` returns and
changes nothing. -/
theorem transfer_insufficient_unchanged_witness :
    transfer .transfer_scoped_lock 0 6 (0 : Fin 2) 1 1000 exampleAB = some exampleAB ∧
    ∀ fuel s', transfer .transfer_scoped_lock 0 fuel (0 : Fin 2) 1 1000 exampleAB = some s' →
      s'.balance = exampleAB.balance :=
  ⟨(transfer_insufficient_unchanged .transfer_scoped_lock 0 (0 : Fin 2) 1 1000 exampleAB
      (by decide) (by decide)).2 rfl rfl 6 (by decide),
   (transfer_insufficient_unchanged .transfer_scoped_lock 0 (0 : Fin 2) 1 1000 exampleAB
      (by decide) (by decide)).1⟩

/-- C3 (as amended): for any accounts with free mutexes and any finite sequence of transfer calls
executed one after the other (for `transfer_scoped_lock`, calls with `from` different from `to`),
every call returns, and the sum of all balances after the sequence equals the sum before it
modulo 2^32; it equals the sum before it exactly when no balance update of the sequence leaves
the range of `int`. -/
theorem transfers_preserve_total {n : Nat} (impl : Impl) (t : Tid) (fuel : Nat)
    (hfuel : 6 ≤ fuel) (calls : List (Call n)) (s : Accounts n)
    (hok : impl = .transfer_scoped_lock → ∀ c ∈ calls, c.from_ ≠ c.to_)
    (hfree : ∀ i, s.m i = none) :
    ∃ s', runCalls impl t fuel calls s = some s' ∧
      (∃ k : Int, total s' = total s + 4294967296 * k) ∧
      (runExact impl t fuel calls s → total s' = total s) := by
  obtain ⟨s', h1, _, h2, h3⟩ := runCalls_total impl t fuel hfuel calls s hok hfree
  exact ⟨s', h1, h2, h3⟩

/-- Witness for C3: three calls of `transfer_safe_lock`, the last one with `from == to`; no
update overflows, and the sum of the balances is the same afterwards. -/
theorem transfers_preserve_total_witness :
    ∃ s', runCalls .transfer_safe_lock 0 6
        [⟨(0 : Fin 2), 1, 50⟩, ⟨1, 0, 20⟩, ⟨0, 0, 5⟩] exampleAB = some s' ∧
      total s' = total exampleAB := by
  obtain ⟨s', h1, _, h3⟩ := transfers_preserve_total .transfer_safe_lock 0 6 (by decide)
    [⟨(0 : Fin 2), 1, 50⟩, ⟨1, 0, 20⟩, ⟨0, 0, 5⟩] exampleAB (fun h => by cases h)
    (fun _ => rfl)
  refine ⟨s', h1, h3 ?_⟩
  refine ⟨fun _ _ => by decide, fun s1 hs1 => ?_⟩
  rw [transfer_distinct _ 0 (0 : Fin 2) 1 50 exampleAB (by decide) rfl rfl 6 (by decide)] at hs1
  cases hs1
  refine ⟨fun _ _ => by decide, fun s2 _ => ?_⟩
  exact ⟨fun h => absurd rfl h, fun _ _ => trivial⟩

/-- Counterexample to C3 as stated: from balances 1 and `INT_MAX` the single call
`transfer(0, 1, 1)` returns and the sum of the balances afterwards differs from the sum before
(it drops by 2^32); in both implementations. -/
theorem transfers_total_overflow :
    (∃ s', runCalls .transfer_safe_lock 0 6 [⟨(0 : Fin 2), 1, 1⟩] exampleMax = some s' ∧
      total s' ≠ total exampleMax) ∧
    (∃ s', runCalls .transfer_scoped_lock 0 6 [⟨(0 : Fin 2), 1, 1⟩] exampleMax = some s' ∧
      total s' ≠ total exampleMax) := by
  constructor <;>
  · refine ⟨transferBody 0 1 1 exampleMax, ?_, ?_⟩
    · simp only [runCalls]
      rw [transfer_distinct _ 0 (0 : Fin 2) 1 1 exampleMax (by decide) rfl rfl 6 (by decide)]
    · rw [total_transferBody _ _ _ _ (by decide)]
      simp only [total, Fin.sum_univ_two]
      decide

/-- C6 (the code deviates for `transfer_scoped_lock`): with `from` and `to` the same account,
`transfer_safe_lock` returns at once and leaves the whole state, balance and mutex, as it was,
whereas `transfer_scoped_lock` never returns, whatever the number of atomic actions granted. -/
theorem transfer_self {n : Nat} (t : Tid) (a : Fin n) (amount : Int) (s : Accounts n)
    (fuel : Nat) :
    transfer .transfer_safe_lock t (fuel + 1) a a amount s = some s ∧
    transfer .transfer_scoped_lock t fuel a a amount s = none :=
  ⟨transfer_safe_self t a amount s fuel, transfer_scoped_self_none t a amount s fuel⟩

/-- C7: for two distinct accounts whose mutexes are free before the call and every amount, the
call returns with neither mutex held, and the state of all mutexes is as before the call; for
`transfer_safe_lock` and `transfer_scoped_lock` alike, on the success path and on the
insufficient-funds path. -/
theorem transfer_releases_locks {n : Nat} (impl : Impl) (t : Tid) (from_ to_ : Fin n)
    (amount : Int) (s : Accounts n) (hne : from_ ≠ to_) (hf : s.m from_ = none)
    (ht : s.m to_ = none) (fuel : Nat) (hfuel : 6 ≤ fuel) :
    ∃ s', transfer impl t fuel from_ to_ amount s = some s' ∧
      s'.m from_ = none ∧ s'.m to_ = none ∧ s'.m = s.m := by
  refine ⟨_, transfer_distinct impl t from_ to_ amount s hne hf ht fuel hfuel, ?_, ?_, ?_⟩ <;>
    simp [transferBody_m, hf, ht]

/-- Witness for C7: a call on the insufficient-funds path. -/
theorem transfer_releases_locks_witness :
    ∃ s', transfer .transfer_safe_lock 3 6 (1 : Fin 2) 0 1000 exampleAB = some s' ∧
      s'.m 1 = none ∧ s'.m 0 = none ∧ s'.m = exampleAB.m :=
  transfer_releases_locks .transfer_safe_lock 3 (1 : Fin 2) 0 1000 exampleAB (by decide)
    rfl rfl 6 (by decide)

/-- C8 (as amended): for two distinct accounts whose balances are non-negative `int`s, and every
amount with `0 <= amount <= from.balance` and `to.balance + amount <= INT_MAX`, whenever the call
returns both balances are non-negative; and it does return when both mutexes are free. This
holds for both implementations. -/
theorem transfer_keeps_nonneg {n : Nat} (impl : Impl) (t : Tid) (from_ to_ : Fin n)
    (amount : Int) (s : Accounts n) (hne : from_ ≠ to_)
    (hfi : isInt (s.balance from_)) (hfrom : 0 ≤ s.balance from_)
    (hto : 0 ≤ s.balance to_) (hge : s.balance from_ ≥ amount) (hamt : 0 ≤ amount)
    (hmax : s.balance to_ + amount ≤ INT_MAX) :
    (∀ fuel s', transfer impl t fuel from_ to_ amount s = some s' →
      0 ≤ s'.balance from_ ∧ 0 ≤ s'.balance to_) ∧
    (s.m from_ = none → s.m to_ = none → ∀ fuel, 6 ≤ fuel →
      ∃ s', transfer impl t fuel from_ to_ amount s = some s') := by
  have h1 : isInt (s.balance from_ - amount) := by
    unfold isInt INT_MIN INT_MAX at *
    omega
  have h2 : isInt (s.balance to_ + amount) := by
    unfold isInt INT_MIN INT_MAX at *
    omega
  constructor
  · intro fuel s' h
    rw [transfer_some_balance impl t fuel from_ to_ amount s s' hne h]
    constructor
    · simp only [transferBody, hge, if_true, Function.update_noteq hne, Function.update_same,
        wrapInt_of_isInt _ h1]
      omega
    · simp only [transferBody, hge, if_true, Function.update_noteq (Ne.symm hne),
        Function.update_same, wrapInt_of_isInt _ h2]
      omega
  · intro hf ht fuel hfuel
    exact ⟨_, transfer_distinct impl t from_ to_ amount s hne hf ht fuel hfuel⟩

/-- Witness for C8: the whole balance of `A` moved to `B`. -/
theorem transfer_keeps_nonneg_witness :
    ∃ s', transfer .transfer_safe_lock 0 6 (0 : Fin 2) 1 100 exampleAB = some s' ∧
      0 ≤ s'.balance 0 ∧ 0 ≤ s'.balance 1 := by
  have h := transfer_keeps_nonneg .transfer_safe_lock 0 (0 : Fin 2) 1 100 exampleAB (by decide)
    (by decide) (by decide) (by decide) (by decide) (by decide) (by decide)
  obtain ⟨s', hs⟩ := h.2 rfl rfl 6 (by decide)
  exact ⟨s', hs, h.1 6 s' hs⟩

/-- Counterexample to C8 as stated: from two accounts with balance 0 the call with amount `-5`
passes the guard `from.balance >= amount` and leaves `to.balance = -5` (both implementations);
and from balances 1 and `INT_MAX` the call with amount 1 leaves `to.balance` negative. -/
theorem transfer_negative_balance :
    (∃ s', transfer .transfer_safe_lock 0 6 (0 : Fin 2) 1 (-5) exampleZero = some s' ∧
      0 ≤ exampleZero.balance 0 ∧ 0 ≤ exampleZero.balance 1 ∧ exampleZero.balance 0 ≥ -5 ∧
      s'.balance 1 < 0) ∧
    (∃ s', transfer .transfer_scoped_lock 0 6 (0 : Fin 2) 1 (-5) exampleZero = some s' ∧
      0 ≤ exampleZero.balance 0 ∧ 0 ≤ exampleZero.balance 1 ∧ exampleZero.balance 0 ≥ -5 ∧
      s'.balance 1 < 0) ∧
    (∃ s', transfer .transfer_safe_lock 0 6 (0 : Fin 2) 1 1 exampleMax = some s' ∧
      0 ≤ exampleMax.balance 0 ∧ 0 ≤ exampleMax.balance 1 ∧ exampleMax.balance 0 ≥ 1 ∧
      s'.balance 1 < 0) := by
  refine ⟨?_, ?_, ?_⟩ <;>
  · refine ⟨_, transfer_distinct _ 0 (0 : Fin 2) 1 _ _ (by decide) rfl rfl 6 (by decide), ?_⟩
    decide

end Bank

namespace Bank

set_option maxRecDepth 100000 in
theorem cinv_step_cases (impl : Impl) (t : Bool) (pc0 pc1 : Pc) (oa ob : Option Bool) :
    CInv impl ⟨pc0, pc1, oa, ob⟩ = true →
    (match Ctl.step impl t ⟨pc0, pc1, oa, ob⟩ with
      | none => true
      | some k' => CInv impl k') = true := by
  rcases oa with _ | _ | _ <;> rcases ob with _ | _ | _ <;>
  rcases pc0 with _ | (_ | _) | (_ | _) | (_ | _) | _ | _ | _ | _ <;>
  rcases pc1 with _ | (_ | _) | (_ | _) | (_ | _) | _ | _ | _ | _ <;>
  cases impl <;> cases t <;> decide

set_option maxRecDepth 100000 in
theorem cinv_progress_cases (impl : Impl) (pc0 pc1 : Pc) (oa ob : Option Bool) :
    CInv impl ⟨pc0, pc1, oa, ob⟩ = true →
    Ctl.finished ⟨pc0, pc1, oa, ob⟩ = false →
    ((Ctl.step impl false ⟨pc0, pc1, oa, ob⟩).isSome ||
      (Ctl.step impl true ⟨pc0, pc1, oa, ob⟩).isSome) = true := by
  rcases oa with _ | _ | _ <;> rcases ob with _ | _ | _ <;>
  rcases pc0 with _ | (_ | _) | (_ | _) | (_ | _) | _ | _ | _ | _ <;>
  rcases pc1 with _ | (_ | _) | (_ | _) | (_ | _) | _ | _ | _ | _ <;>
  cases impl <;> decide

set_option maxRecDepth 100000 in
theorem cinv_stuck_cases (impl : Impl) (pc0 pc1 : Pc) (oa ob : Option Bool) :
    CInv impl ⟨pc0, pc1, oa, ob⟩ = true →
    (Ctl.step impl false ⟨pc0, pc1, oa, ob⟩).isSome = false →
    (Ctl.step impl true ⟨pc0, pc1, oa, ob⟩).isSome = false →
    oa = none ∧ ob = none := by
  rcases oa with _ | _ | _ <;> rcases ob with _ | _ | _ <;>
  rcases pc0 with _ | (_ | _) | (_ | _) | (_ | _) | _ | _ | _ | _ <;>
  rcases pc1 with _ | (_ | _) | (_ | _) | (_ | _) | _ | _ | _ | _ <;>
  cases impl <;> decide

set_option maxRecDepth 100000 in
theorem cinv_drain_cases (impl : Impl) (pc0 pc1 : Pc) (oa ob : Option Bool) :
    CInv impl ⟨pc0, pc1, oa, ob⟩ = true →
    (Ctl.runSkip impl drain ⟨pc0, pc1, oa, ob⟩).finished = true := by
  rcases oa with _ | _ | _ <;> rcases ob with _ | _ | _ <;>
  rcases pc0 with _ | (_ | _) | (_ | _) | (_ | _) | _ | _ | _ | _ <;>
  rcases pc1 with _ | (_ | _) | (_ | _) | (_ | _) | _ | _ | _ | _ <;>
  cases impl <;> decide

theorem cinv_step (impl : Impl) (t : Bool) (k : Ctl) (h : CInv impl k = true) :
    (match Ctl.step impl t k with
      | none => true
      | some k' => CInv impl k') = true := by
  cases k; exact cinv_step_cases impl t _ _ _ _ h

theorem cinv_progress (impl : Impl) (k : Ctl) (h : CInv impl k = true)
    (hf : k.finished = false) :
    ((Ctl.step impl false k).isSome || (Ctl.step impl true k).isSome) = true := by
  cases k; exact cinv_progress_cases impl _ _ _ _ h hf

theorem cinv_stuck (impl : Impl) (k : Ctl) (h : CInv impl k = true)
    (h0 : (Ctl.step impl false k).isSome = false) (h1 : (Ctl.step impl true k).isSome = false) :
    k.ownA = none ∧ k.ownB = none := by
  cases k; exact cinv_stuck_cases impl _ _ _ _ h h0 h1

theorem cinv_drain (impl : Impl) (k : Ctl) (h : CInv impl k = true) :
    (Ctl.runSkip impl drain k).finished = true := by
  cases k; exact cinv_drain_cases impl _ _ _ _ h

theorem ownAbs_eq_none (o : Option Tid) : ownAbs o = none ↔ o = none := by
  rcases o with _ | _ | _ <;> simp [ownAbs]

theorem step_abs {n : Nat} (impl : Impl) (t : Tid) (me : Bool) (hme : ownAbs (some t) = some me)
    (from_ to_ : Fin n) (hne : from_ ≠ to_) (amount : Int) (pc : Pc) (s : Accounts n) :
    (step impl t from_ to_ amount pc s).map
        (fun r => (r.1, ownAbs (r.2.m from_), ownAbs (r.2.m to_))) =
      absStep impl me pc (ownAbs (s.m from_)) (ownAbs (s.m to_)) := by
  have hne' := Ne.symm hne
  rcases pc with _ | (_ | _) | (_ | _) | (_ | _) | _ | _ | _ | _
  · cases impl <;> simp [step, absStep, hne]
  · cases hm : s.m from_ <;>
      simp [step, acquire, absStep, hm, ownAbs_eq_none, mutexLock, hme,
        Function.update_noteq hne']
  · cases hm : s.m to_ <;>
      simp [step, acquire, absStep, hm, ownAbs_eq_none, mutexLock, hme,
        Function.update_noteq hne]
  · cases hm : s.m to_ <;>
      simp [step, acquire, absStep, hm, ownAbs_eq_none, mutexLock, hme,
        Function.update_noteq hne]
  · cases hm : s.m from_ <;>
      simp [step, acquire, absStep, hm, ownAbs_eq_none, mutexLock, hme,
        Function.update_noteq hne']
  · simp [step, acquire, absStep, mutexUnlock, Function.update_noteq hne', ownAbs]
  · simp [step, acquire, absStep, mutexUnlock, Function.update_noteq hne, ownAbs]
  · simp [step, absStep, transferBody_m]
  · cases impl <;>
      simp [step, absStep, mutexUnlock, Function.update_noteq hne, Function.update_noteq hne',
        ownAbs]
  · cases impl <;>
      simp [step, absStep, mutexUnlock, Function.update_noteq hne, Function.update_noteq hne',
        ownAbs]
  · simp [step, absStep]

theorem duo_step_ctl {n : Nat} (impl : Impl) (A B : Fin n) (hAB : A ≠ B) (x y : Int) (t : Bool)
    (c : Duo n) :
    (Duo.step impl A B x y t c).map (Duo.ctl A B) = Ctl.step impl t (Duo.ctl A B c) := by
  cases t
  · have h := step_abs impl 0 false rfl A B hAB x c.pc0 c.accounts
    simp only [Duo.step, Ctl.step, Duo.ctl]
    rw [← h]
    cases Bank.step impl 0 A B x c.pc0 c.accounts <;> rfl
  · have h := step_abs impl 1 true rfl B A (Ne.symm hAB) y c.pc1 c.accounts
    simp only [Duo.step, Ctl.step, Duo.ctl]
    rw [← h]
    cases Bank.step impl 1 B A y c.pc1 c.accounts <;> rfl

theorem duo_exec_inv {n : Nat} (impl : Impl) (A B : Fin n) (hAB : A ≠ B) (x y : Int)
    (σ : List Bool) : ∀ (c c' : Duo n), CInv impl (Duo.ctl A B c) = true →
      Duo.exec impl A B x y σ c = some c' → CInv impl (Duo.ctl A B c') = true := by
  induction σ with
  | nil =>
    intro c c' hc h
    simp only [Duo.exec, Option.some.injEq] at h
    rw [← h]; exact hc
  | cons t ts ih =>
    intro c c' hc h
    simp only [Duo.exec] at h
    have hsim := duo_step_ctl impl A B hAB x y t c
    cases hs : Duo.step impl A B x y t c with
    | none => simp [hs] at h
    | some c1 =>
      simp only [hs] at h
      rw [hs] at hsim
      have hstep := cinv_step impl t _ hc
      rw [← hsim] at hstep
      exact ih c1 c' hstep h

theorem duo_exec_drain {n : Nat} (impl : Impl) (A B : Fin n) (hAB : A ≠ B) (x y : Int)
    (sched : List Bool) : ∀ (c : Duo n), ∃ σ c', Duo.exec impl A B x y σ c = some c' ∧
      Duo.ctl A B c' = Ctl.runSkip impl sched (Duo.ctl A B c) := by
  induction sched with
  | nil => intro c; exact ⟨[], c, rfl, rfl⟩
  | cons t ts ih =>
    intro c
    have hsim := duo_step_ctl impl A B hAB x y t c
    cases hs : Duo.step impl A B x y t c with
    | none =>
      rw [hs] at hsim
      obtain ⟨σ, c', h1, h2⟩ := ih c
      refine ⟨σ, c', h1, ?_⟩
      simp only [Ctl.runSkip, ← hsim, Option.map_none']
      exact h2
    | some c1 =>
      rw [hs] at hsim
      obtain ⟨σ, c', h1, h2⟩ := ih c1
      refine ⟨t :: σ, c', ?_, ?_⟩
      · simp only [Duo.exec, hs]; exact h1
      · simp only [Ctl.runSkip, ← hsim, Option.map_some']
        exact h2

/-- C9 (as amended): for two distinct accounts `A`, `B` with free mutexes and all amounts `x`, `y`,
when one task runs `transfer(A, B, x)` and the other concurrently runs `transfer(B, A, y)`, in
every state reached by any interleaving: unless both calls have returned some task can take a
step (no deadlock); it is never the case that both tasks are unable to move while each owns one
of the two mutexes; and some continuation of the interleaving reaches a state in which both
calls have returned. -/
theorem opposite_transfers_no_deadlock {n : Nat} (impl : Impl) (A B : Fin n) (hAB : A ≠ B)
    (x y : Int) (s : Accounts n) (hA : s.m A = none) (hB : s.m B = none) (σ : List Bool)
    (c : Duo n) (hrun : Duo.exec impl A B x y σ (Duo.init s) = some c) :
    (c.finished = false → ∃ t, (Duo.step impl A B x y t c).isSome = true) ∧
    ¬ (Duo.step impl A B x y false c = none ∧ Duo.step impl A B x y true c = none ∧
        ((c.accounts.m A = some 0 ∧ c.accounts.m B = some 1) ∨
         (c.accounts.m A = some 1 ∧ c.accounts.m B = some 0))) ∧
    (∃ σ' c', Duo.exec impl A B x y σ' c = some c' ∧ c'.finished = true) := by
  have hinit : CInv impl (Duo.ctl A B (Duo.init s)) = true := by
    simp [CInv, Duo.ctl, Duo.init, hA, hB, ownAbs, holdsFrom, holdsTo, expectOwner]
  have hinv := duo_exec_inv impl A B hAB x y σ _ c hinit hrun
  have h0 := duo_step_ctl impl A B hAB x y false c
  have h1 := duo_step_ctl impl A B hAB x y true c
  refine ⟨?_, ?_, ?_⟩
  · intro hfin
    have hp := cinv_progress impl _ hinv hfin
    rw [← h0, ← h1] at hp
    simp only [Bool.or_eq_true, Option.isSome_map'] at hp
    rcases hp with hp | hp
    · exact ⟨false, hp⟩
    · exact ⟨true, hp⟩
  · rintro ⟨hb0, hb1, hown⟩
    rw [hb0] at h0
    rw [hb1] at h1
    have hq := cinv_stuck impl _ hinv (by rw [← h0]; rfl) (by rw [← h1]; rfl)
    simp only [Duo.ctl, ownAbs_eq_none] at hq
    rcases hown with ⟨ha, _⟩ | ⟨ha, _⟩ <;> simp [ha] at hq
  · obtain ⟨σ', c', hx, hk⟩ := duo_exec_drain impl A B hAB x y drain c
    refine ⟨σ', c', hx, ?_⟩
    have hd := cinv_drain impl _ hinv
    rw [← hk] at hd
    exact hd

/-- Witness for C9: the state in which task 0 owns the mutex of `A` and task 1 the mutex of `B`,
each about to try the other one. -/
theorem opposite_transfers_no_deadlock_witness :
    ((⟨mutexLock 1 1 (mutexLock 0 0 exampleAB), .tryNext false, .tryNext false⟩ :
        Duo 2).finished = false →
      ∃ t, (Duo.step .transfer_safe_lock 0 1 10 20 t
        ⟨mutexLock 1 1 (mutexLock 0 0 exampleAB), .tryNext false, .tryNext false⟩).isSome
          = true) ∧
    ¬ (Duo.step .transfer_safe_lock 0 1 10 20 false
          ⟨mutexLock 1 1 (mutexLock 0 0 exampleAB), .tryNext false, .tryNext false⟩ = none ∧
        Duo.step .transfer_safe_lock 0 1 10 20 true
          ⟨mutexLock 1 1 (mutexLock 0 0 exampleAB), .tryNext false, .tryNext false⟩ = none ∧
        (((mutexLock 1 1 (mutexLock 0 0 exampleAB)).m 0 = some 0 ∧
          (mutexLock 1 1 (mutexLock 0 0 exampleAB)).m 1 = some 1) ∨
         ((mutexLock 1 1 (mutexLock 0 0 exampleAB)).m 0 = some 1 ∧
          (mutexLock 1 1 (mutexLock 0 0 exampleAB)).m 1 = some 0))) ∧
    (∃ σ' c', Duo.exec .transfer_safe_lock 0 1 10 20 σ'
        ⟨mutexLock 1 1 (mutexLock 0 0 exampleAB), .tryNext false, .tryNext false⟩ = some c' ∧
      c'.finished = true) :=
  opposite_transfers_no_deadlock .transfer_safe_lock (0 : Fin 2) 1 (by decide) 10 20 exampleAB
    rfl rfl [false, true, false, true]
    ⟨mutexLock 1 1 (mutexLock 0 0 exampleAB), .tryNext false, .tryNext false⟩ rfl

/-- Counterexample to C9 as stated: on accounts `A`, `B` with tasks running `transfer(A, B, 10)`
and `transfer(B, A, 20)`, after each task has passed its entry the twelve alternating actions of
`spin` lead from a state back to the very same state, in which neither call has returned; the
interleaving that repeats them for ever never reaches a state in which both calls have returned.
This holds for both implementations. -/
theorem opposite_transfers_livelock :
    (∃ c : Duo 2,
      Duo.exec .transfer_safe_lock 0 1 10 20 [false, true] (Duo.init exampleAB) = some c ∧
      Duo.exec .transfer_safe_lock 0 1 10 20 spin c = some c ∧ c.finished = false) ∧
    (∃ c : Duo 2,
      Duo.exec .transfer_scoped_lock 0 1 10 20 [false, true] (Duo.init exampleAB) = some c ∧
      Duo.exec .transfer_scoped_lock 0 1 10 20 spin c = some c ∧ c.finished = false) := by
  constructor <;>
  · refine ⟨⟨exampleAB, .lockFirst false, .lockFirst false⟩, rfl, ?_, rfl⟩
    simp [Duo.exec, spin, Duo.step, step, acquire, exampleAB, mutexLock, mutexUnlock]
    funext i
    fin_cases i <;> rfl

end Bank

namespace ThreadsafeQueue

theorem queue_notify_one_data (pick : Nat) (s : State) :
    (notify_one pick s).data_queue = s.data_queue := by
  unfold notify_one
  split <;> rfl

theorem queue_step_fifo (e : Event) (s : State) :
    (step e s).2.toList ++ (step e s).1.data_queue = s.data_queue ++ pushedOf [e] := by
  cases e with
  | push v pick => simp [step, push, queue_notify_one_data, pushedOf]
  | wait_and_pop c =>
    simp only [step, pushedOf]
    split
    · simp
    · unfold checkAndPop
      split <;> simp [*]
  | spurious c =>
    simp only [step, pushedOf]
    split <;> simp
  | resume c =>
    simp only [step, pushedOf]
    split
    · unfold checkAndPop
      split <;> simp_all
    · simp

theorem queue_pushedOf_cons (e : Event) (es : List Event) :
    pushedOf (e :: es) = pushedOf [e] ++ pushedOf es := by
  cases e <;> simp [pushedOf]

theorem queue_run_fifo (es : List Event) : ∀ s : State,
    (run es s).2 ++ (run es s).1.data_queue = s.data_queue ++ pushedOf es := by
  induction es with
  | nil => intro s; simp [run, pushedOf]
  | cons e es ih =>
    intro s
    simp only [run]
    rw [List.append_assoc, ih, ← List.append_assoc, queue_step_fifo, queue_pushedOf_cons e es,
      List.append_assoc]

theorem queue_run_init_fifo (es : List Event) :
    (run es State.init).2 ++ (run es State.init).1.data_queue = pushedOf es := by
  simpa [State.init] using queue_run_fifo es State.init

/-- C4: starting from an empty queue, after any sequence of atomic actions (pushes, calls of
`wait_and_pop`, wake-ups and re-checks of waiting consumers), the values returned so far followed
by the values still in the queue are exactly the values pushed so far, in push order; so once the
queue is drained the values popped are the values pushed, as lists, hence as multisets, and every
value has been popped as often as it was pushed. -/
theorem queue_pops_are_pushes_in_order (es : List Event) :
    (run es State.init).2 ++ (run es State.init).1.data_queue = pushedOf es ∧
    ((run es State.init).1.data_queue = [] →
      (run es State.init).2 = pushedOf es ∧
      Multiset.ofList (run es State.init).2 = Multiset.ofList (pushedOf es) ∧
      ∀ v : Int, (run es State.init).2.count v = (pushedOf es).count v) := by
  have h := queue_run_init_fifo es
  refine ⟨h, ?_⟩
  intro hq
  rw [hq, List.append_nil] at h
  rw [h]
  exact ⟨rfl, rfl, fun _ => rfl⟩

/-- Witness for C4: two pushes and two pops drain the queue; the values popped are the values
pushed, in order. -/
theorem queue_pops_are_pushes_in_order_witness :
    (run [.push 1 0, .wait_and_pop 0, .push 2 0, .wait_and_pop 0] State.init).2 =
        pushedOf [.push 1 0, .wait_and_pop 0, .push 2 0, .wait_and_pop 0] ∧
    Multiset.ofList (run [.push 1 0, .wait_and_pop 0, .push 2 0, .wait_and_pop 0] State.init).2 =
        Multiset.ofList (pushedOf [.push 1 0, .wait_and_pop 0, .push 2 0, .wait_and_pop 0]) ∧
    ∀ v : Int, (run [.push 1 0, .wait_and_pop 0, .push 2 0, .wait_and_pop 0] State.init).2.count v =
        (pushedOf [.push 1 0, .wait_and_pop 0, .push 2 0, .wait_and_pop 0]).count v :=
  (queue_pops_are_pushes_in_order
    [.push 1 0, .wait_and_pop 0, .push 2 0, .wait_and_pop 0]).2 (by decide)

theorem queue_checkAndPop_some (c : Nat) (s : State) (v : Int) (h : (checkAndPop c s).2 = some v) :
    s.data_queue.head? = some v := by
  unfold checkAndPop at h
  split at h
  · simp at h
  · rename_i value rest hq
    simp only [Option.some.injEq] at h
    simp [hq, h]

theorem queue_step_some (e : Event) (s : State) (v : Int) (h : (step e s).2 = some v) :
    s.data_queue.head? = some v := by
  cases e with
  | push w pick => simp [step] at h
  | wait_and_pop c =>
    simp only [step] at h
    split at h
    · simp at h
    · exact queue_checkAndPop_some c s v h
  | spurious c =>
    simp only [step] at h
    split at h <;> simp at h
  | resume c =>
    simp only [step] at h
    split at h
    · exact queue_checkAndPop_some c { s with woken := s.woken.erase c } v h
    · simp at h

theorem queue_move_nodup (c : Nat) (xs ys : List Nat) (h : (xs ++ ys).Nodup) (hc : c ∈ xs) :
    (xs.erase c ++ c :: ys).Nodup := by
  rw [List.nodup_append] at h ⊢
  obtain ⟨hx, hy, hd⟩ := h
  refine ⟨hx.erase c, ?_, ?_⟩
  · rw [List.nodup_cons]
    exact ⟨fun hmem => hd hc hmem, hy⟩
  · intro a ha hb
    rw [hx.mem_erase_iff] at ha
    rcases List.mem_cons.mp hb with rfl | hb
    · exact ha.1 rfl
    · exact hd ha.2 hb

theorem queue_move_back_nodup (c : Nat) (xs ys : List Nat) (h : (xs ++ ys).Nodup) (hc : c ∈ ys) :
    (c :: xs ++ ys.erase c).Nodup := by
  have h1 : (ys ++ xs).Nodup := by
    rw [List.nodup_append] at h ⊢
    exact ⟨h.2.1, h.1, h.2.2.symm⟩
  have h2 := queue_move_nodup c ys xs h1 hc
  rw [List.nodup_append] at h2
  obtain ⟨ha, hb, hd⟩ := h2
  rw [List.cons_append, List.nodup_cons, List.nodup_append]
  rw [List.nodup_cons] at hb
  refine ⟨?_, hb.2, ha, ?_⟩
  · intro hmem
    rcases List.mem_append.mp hmem with hm | hm
    · exact hb.1 hm
    · exact hd hm (List.mem_cons_self _ _)
  · intro a hax hay
    exact hd hay (List.mem_cons_of_mem _ hax)

theorem queue_step_wf (e : Event) (s : State) (h : s.wf) : (step e s).1.wf := by
  unfold State.wf at h ⊢
  cases e with
  | push v pick =>
    simp only [step, push, notify_one]
    split
    · exact h
    · rename_i c hc
      exact queue_move_nodup c _ _ h (List.getElem?_mem hc)
  | wait_and_pop c =>
    simp only [step]
    split
    · exact h
    · rename_i hc
      unfold checkAndPop
      split
      · simp only [List.cons_append, List.nodup_cons]
        exact ⟨fun hmem => hc (List.mem_append.mp hmem), h⟩
      · exact h
  | spurious c =>
    simp only [step]
    split
    · rename_i hc
      exact queue_move_nodup c _ _ h hc
    · exact h
  | resume c =>
    simp only [step]
    split
    · rename_i hc
      unfold checkAndPop
      split
      · exact queue_move_back_nodup c _ _ h hc
      · simp only
        rw [List.nodup_append] at h ⊢
        exact ⟨h.1, h.2.1.erase c, fun a ha hb => h.2.2 ha (List.mem_of_mem_erase hb)⟩
    · exact h

theorem queue_run_wf (es : List Event) : ∀ s : State, s.wf → (run es s).1.wf := by
  induction es with
  | nil => intro s h; exact h
  | cons e es ih => intro s h; exact ih _ (queue_step_wf e s h)

/-- C5: in every reachable state of the queue, (1) a consumer that was unblocked, by `notify_one`
or spuriously, and finds the queue empty when it re-checks returns nothing, leaves the queue
empty and is waiting again; (2) whenever a step makes `wait_and_pop` return a value, the queue
was non-empty before that step, the value was its front element, fewer values had been returned
than pushed, and the value is the oldest pushed value not yet returned. -/
theorem wait_and_pop_returns_only_when_nonempty (es : List Event) (e : Event) :
    (∀ c, e = .resume c → c ∈ (run es State.init).1.woken →
      (run es State.init).1.data_queue = [] →
        (step e (run es State.init).1).2 = none ∧
        (step e (run es State.init).1).1.data_queue = [] ∧
        c ∈ (step e (run es State.init).1).1.waiting ∧
        c ∉ (step e (run es State.init).1).1.woken) ∧
    (∀ v, (step e (run es State.init).1).2 = some v →
      (run es State.init).1.data_queue ≠ [] ∧
      (run es State.init).1.data_queue.head? = some v ∧
      (run es State.init).2.length < (pushedOf es).length ∧
      (pushedOf es)[(run es State.init).2.length]? = some v) := by
  constructor
  · rintro c rfl hc hq
    have hwf : (run es State.init).1.wf := queue_run_wf es State.init (by simp [State.wf, State.init])
    have hnd : (run es State.init).1.woken.Nodup := (List.nodup_append.mp hwf).2.1
    simp [step, hc, checkAndPop, hq, hnd.mem_erase_iff]
  · intro v hv
    have hhead := queue_step_some e _ v hv
    have hinv := queue_run_init_fifo es
    cases hq : (run es State.init).1.data_queue with
    | nil => simp [hq] at hhead
    | cons w rest =>
      rw [hq] at hinv
      simp only [hq, List.head?_cons, Option.some.injEq] at hhead
      subst hhead
      refine ⟨by simp, rfl, ?_, ?_⟩
      · rw [← hinv]; simp
      · rw [← hinv, List.getElem?_append_right (le_refl _)]; simp

/-- Witness for C5: consumer 7 waits on the empty queue and is woken spuriously: its re-check
returns nothing and it waits again; after a push of 5 its re-check returns 5. -/
theorem wait_and_pop_returns_only_when_nonempty_witness :
    ((step (.resume 7) (run [.wait_and_pop 7, .spurious 7] State.init).1).2 = none ∧
      (step (.resume 7) (run [.wait_and_pop 7, .spurious 7] State.init).1).1.data_queue = [] ∧
      7 ∈ (step (.resume 7) (run [.wait_and_pop 7, .spurious 7] State.init).1).1.waiting ∧
      7 ∉ (step (.resume 7) (run [.wait_and_pop 7, .spurious 7] State.init).1).1.woken) ∧
    ((run [.wait_and_pop 7, .push 5 0] State.init).1.data_queue ≠ [] ∧
      (run [.wait_and_pop 7, .push 5 0] State.init).1.data_queue.head? = some 5 ∧
      (run [.wait_and_pop 7, .push 5 0] State.init).2.length <
        (pushedOf [.wait_and_pop 7, .push 5 0]).length ∧
      (pushedOf [.wait_and_pop 7, .push 5 0])[
        (run [.wait_and_pop 7, .push 5 0] State.init).2.length]? = some 5) :=
  ⟨(wait_and_pop_returns_only_when_nonempty [.wait_and_pop 7, .spurious 7] (.resume 7)).1 7 rfl
      (by decide) (by decide),
   (wait_and_pop_returns_only_when_nonempty [.wait_and_pop 7, .push 5 0] (.resume 7)).2 5
      (by decide)⟩

end ThreadsafeQueue

namespace Counter

theorem counter_inv_init (v : Variant) (N : Nat) : Inv v N (init v) := by
  cases v <;> simp [Inv, init, entryPc, TaskInv, holds, contrib, mtxOf]

set_option maxHeartbeats 4000000 in
theorem counter_inv_step (v : Variant) (N : Nat) (hN : 2 * N < 2147483648) (t : Bool)
    (s s' : State) (hinv : Inv v N s) (hstep : step v N t s = some s') :
    Inv v N s' ∧ s'.remaining v N + 1 = s.remaining v N := by
  obtain ⟨c, m, ⟨p0, i0, x0⟩, ⟨p1, i1, x1⟩⟩ := s
  cases t <;> cases v <;> cases p0 <;> cases p1 <;>
    simp only [step, State.task, State.setTask, Bool.false_eq_true, if_false, if_true,
      wrapCounter] at hstep <;>
    (try split at hstep) <;>
    (try simp only [Option.some.injEq, reduceCtorEq] at hstep) <;>
    (try subst hstep) <;>
    simp only [Inv, TaskInv, holds, contrib, mtxOf, State.remaining, remaining] at hinv ⊢ <;>
    simp only [reduceCtorEq, false_implies, true_implies, forall_const, false_or, or_false,
      or_true, true_or, true_and, and_true, Option.some.injEq, false_and, and_false,
      or_self, Nat.cast_add, Nat.cast_one] at hinv ⊢ <;>
    (try omega) <;>
    (try (obtain ⟨hm, hinv⟩ := hinv
          subst hm
          simp only [true_and]
          omega))

theorem counter_exec_inv (v : Variant) (N : Nat) (hN : 2 * N < 2147483648) (σ : List Bool) :
    ∀ (s s' : State), Inv v N s →
    exec v N σ s = some s' → Inv v N s' ∧ σ.length + s'.remaining v N = s.remaining v N := by
  induction σ with
  | nil =>
    intro s s' hinv h
    simp only [exec, Option.some.injEq] at h
    subst h
    exact ⟨hinv, by simp⟩
  | cons t ts ih =>
    intro s s' hinv h
    simp only [exec] at h
    cases hs : step v N t s with
    | none => simp [hs] at h
    | some s1 =>
      simp only [hs] at h
      obtain ⟨h1, h2⟩ := counter_inv_step v N hN t s s1 hinv hs
      obtain ⟨h3, h4⟩ := ih s1 s' h1 h
      refine ⟨h3, ?_⟩
      simp only [List.length_cons]
      omega

theorem counter_inv_final (v : Variant) (N : Nat) (s : State) (hinv : Inv v N s)
    (hfin : s.finished = true) : s.shared_counter = 2 * N := by
  obtain ⟨c, m, ⟨p0, i0, x0⟩, ⟨p1, i1, x1⟩⟩ := s
  simp only [State.finished, Bool.and_eq_true, decide_eq_true_eq] at hfin
  obtain ⟨rfl, rfl⟩ := hfin
  obtain ⟨_, h0, h1, hc⟩ := hinv
  have e0 : i0 = N := h0.2.2.1 rfl
  have e1 : i1 = N := h1.2.2.1 rfl
  show c = 2 * N
  cases v <;> simp [contrib] at hc <;> omega

theorem counter_inv_range (v : Variant) (N : Nat) (s : State) (hinv : Inv v N s) :
    0 ≤ s.shared_counter ∧ s.shared_counter ≤ 2 * N := by
  obtain ⟨c, m, ⟨p0, i0, x0⟩, ⟨p1, i1, x1⟩⟩ := s
  obtain ⟨_, h0, h1, hc⟩ := hinv
  simp only [TaskInv] at h0 h1
  show 0 ≤ c ∧ c ≤ 2 * N
  cases v <;> cases p0 <;> cases p1 <;> simp [contrib] at hc h0 h1 ⊢ <;> omega

theorem counter_step_isSome (v : Variant) (N : Nat) (t : Bool) (s : State) :
    (step v N t s).isSome = canMove (s.task t).pc s.mtx := by
  obtain ⟨c, m, ⟨p0, i0, x0⟩, ⟨p1, i1, x1⟩⟩ := s
  cases t <;> simp only [step, State.task, Bool.false_eq_true, if_false, if_true]
  · cases p0 <;> cases m <;> simp [canMove] <;> split <;> rfl
  · cases p1 <;> cases m <;> simp [canMove] <;> split <;> rfl

theorem counter_inv_progress (v : Variant) (N : Nat) (s : State) (hinv : Inv v N s)
    (hfin : s.finished = false) : ∃ t, (step v N t s).isSome = true := by
  obtain ⟨c, m, ⟨p0, i0, x0⟩, ⟨p1, i1, x1⟩⟩ := s
  obtain ⟨hm, -⟩ := hinv
  have key : canMove p0 m = true ∨ canMove p1 m = true := by
    cases v <;> cases p0 <;> cases p1 <;> rcases m with _ | _ | _ <;>
      simp [holds, mtxOf, State.finished, canMove] at hm hfin ⊢
  rcases key with h | h
  · exact ⟨false, by rw [counter_step_isSome]; exact h⟩
  · exact ⟨true, by rw [counter_step_isSome]; exact h⟩

theorem counter_inv_complete (v : Variant) (N : Nat) (hN : 2 * N < 2147483648) (k : Nat) :
    ∀ (s : State), Inv v N s →
    s.remaining v N = k → ∃ σ s', exec v N σ s = some s' ∧ s'.finished = true := by
  induction k with
  | zero =>
    intro s hinv hk
    refine ⟨[], s, rfl, ?_⟩
    by_contra hfin
    obtain ⟨t, ht⟩ := counter_inv_progress v N s hinv (by simpa using hfin)
    cases hs : step v N t s with
    | none => simp [hs] at ht
    | some s1 =>
      have := (counter_inv_step v N hN t s s1 hinv hs).2
      omega
  | succ k ih =>
    intro s hinv hk
    by_cases hfin : s.finished = true
    · exact ⟨[], s, rfl, hfin⟩
    · obtain ⟨t, ht⟩ := counter_inv_progress v N s hinv (by simpa using hfin)
      cases hs : step v N t s with
      | none => simp [hs] at ht
      | some s1 =>
        obtain ⟨h1, h2⟩ := counter_inv_step v N hN t s s1 hinv hs
        obtain ⟨σ, s', h3, h4⟩ := ih s1 h1 (by omega)
        exact ⟨t :: σ, s', by simp only [exec, hs]; exact h3, h4⟩

theorem counter_remaining_init (v : Variant) (N : Nat) :
    (init v).remaining v N = 2 * soloLen v N := by
  cases v <;> simp [init, entryPc, State.remaining, remaining, soloLen] <;> omega

/-- C10: with the counter initialised to 0 and two tasks each running the protected loop of
1,000,000 increments (`increment_counter_safe` or `increment_counter_safe_lock_guard`), in every
state reached by any interleaving of their atomic actions: if both tasks have returned the
counter is exactly 2,000,000; the counter lies between 0 and 2,000,000; unless both tasks have
returned some task can take a step; the interleaving has at most twice the length of one task's
run; and some continuation reaches a state in which both tasks have returned, with the counter
at 2,000,000. Hence every maximal interleaving is finite and ends with 2,000,000. -/
theorem counter_is_two_million (v : Variant) (σ : List Bool) (s : State)
    (hrun : exec v 1000000 σ (init v) = some s) :
    (s.finished = true → s.shared_counter = 2000000) ∧
    (0 ≤ s.shared_counter ∧ s.shared_counter ≤ 2000000) ∧
    (s.finished = false → ∃ t, (step v 1000000 t s).isSome = true) ∧
    σ.length ≤ 2 * soloLen v 1000000 ∧
    (∃ σ' s', exec v 1000000 σ' s = some s' ∧ s'.finished = true ∧
      s'.shared_counter = 2000000) := by
  obtain ⟨hinv, hlen⟩ :=
    counter_exec_inv v 1000000 (by decide) σ _ s (counter_inv_init v 1000000) hrun
  refine ⟨?_, ?_, ?_, ?_, ?_⟩
  · intro hfin
    have := counter_inv_final v 1000000 s hinv hfin
    omega
  · have := counter_inv_range v 1000000 s hinv
    omega
  · exact counter_inv_progress v 1000000 s hinv
  · rw [counter_remaining_init] at hlen
    omega
  · obtain ⟨σ', s', h1, h2⟩ := counter_inv_complete v 1000000 (by decide) _ s hinv rfl
    refine ⟨σ', s', h1, h2, ?_⟩
    have hinv' := (counter_exec_inv v 1000000 (by decide) σ' s s' hinv h1).1
    have := counter_inv_final v 1000000 s' hinv' h2
    omega

/-- Witness for C10: task 0 completes its first protected increment and task 1 then takes the
mutex. -/
theorem counter_is_two_million_witness :
    exec .increment_counter_safe_lock_guard 1000000
        [false, true, false, false, false, false, false, true]
        (init .increment_counter_safe_lock_guard) =
      some { shared_counter := 1, mtx := some true,
             t0 := { pc := .test, i := 1, tmp := 0 }, t1 := { pc := .load, i := 0, tmp := 0 } } ∧
    (∃ σ' s', exec .increment_counter_safe_lock_guard 1000000 σ'
        { shared_counter := 1, mtx := some true,
          t0 := { pc := .test, i := 1, tmp := 0 }, t1 := { pc := .load, i := 0, tmp := 0 } }
        = some s' ∧ s'.finished = true ∧ s'.shared_counter = 2000000) :=
  ⟨by decide, (counter_is_two_million .increment_counter_safe_lock_guard
      [false, true, false, false, false, false, false, true] _ (by decide)).2.2.2.2⟩

end Counter
